import Mathlib

/-!
# Verification of the OPC UA log-record codec and record retriever

Shallow embedding of `receiver/opcua/log_record_type.go` (the binary
LogRecord codec, NodeId codec, Variant codec and the hex trace-context
mappers), `receiver/opcua/client.go` together with the GetRecords call
helper (pagination loop, stale-continuation-point retry, per-source and
per-record error absorption) and the severity classification
(`severityToText`).

Modelling conventions:
* Go `[]byte` values are `List Nat` whose elements are below 256; writers
  apply `% 256` exactly where Go performs a narrowing cast.
* Go strings are their UTF-8 byte sequences (`List Nat`).
* Machine integers are `Nat`/`Int` with explicit `% 2^w` wrapping;
  `int64`/`int32` values travel through the same two's-complement
  conversions the Go casts perform.
* The gopcua `ua.Buffer` is the structure `RBuf`: the unread bytes, the
  number of consumed bytes, and the sticky error flag.  As in gopcua,
  a read past the end of the buffer sets the flag and returns a zero
  value, and every read on an errored buffer returns a zero value.
* `float32`/`float64` values are carried by their IEEE bit patterns: the
  codec only moves the bit pattern (`math.Float64frombits`), so this is
  exact.
-/

namespace OpcUa

/-! ## Little-endian byte groups -/

/-- The `n` little-endian bytes of `v` (the write side of
`binary.LittleEndian.PutUintN` / `Buffer.WriteUintN`). -/
def leBytes : Nat → Nat → List Nat
  | 0, _ => []
  | n + 1, v => v % 256 :: leBytes n (v / 256)

/-- Recombine little-endian bytes (the read side,
`binary.LittleEndian.UintN`). -/
def fromLE : List Nat → Nat
  | [] => 0
  | b :: t => b + 256 * fromLE t

@[simp] theorem leBytes_length (n v : Nat) : (leBytes n v).length = n := by
  induction n generalizing v with
  | zero => rfl
  | succ n ih => simp [leBytes, ih]

theorem fromLE_leBytes (n v : Nat) : fromLE (leBytes n v) = v % 256 ^ n := by
  induction n generalizing v with
  | zero => simp [leBytes, fromLE, Nat.mod_one]
  | succ n ih =>
      simp only [leBytes, fromLE, ih, pow_succ]
      rw [mul_comm (256 ^ n) 256, Nat.mod_mul]

theorem fromLE_lt (l : List Nat) (h : ∀ b ∈ l, b < 256) :
    fromLE l < 256 ^ l.length := by
  induction l with
  | nil => simp [fromLE]
  | cons b t ih =>
      have hb : b < 256 := h b (by simp)
      have ht := ih (fun x hx => h x (by simp [hx]))
      simp only [fromLE, List.length_cons, pow_succ]
      calc b + 256 * fromLE t < 256 + 256 * fromLE t := by omega
        _ ≤ 256 * 256 ^ t.length := by omega
        _ = 256 ^ t.length * 256 := by ring

theorem leBytes_fromLE (l : List Nat) (n : Nat) (hlen : l.length = n)
    (h : ∀ b ∈ l, b < 256) : leBytes n (fromLE l) = l := by
  induction n generalizing l with
  | zero => cases l <;> simp_all [leBytes]
  | succ n ih =>
      cases l with
      | nil => simp at hlen
      | cons b t =>
          have hb : b < 256 := h b (by simp)
          have h1 : (b + 256 * fromLE t) % 256 = b := by omega
          have h2 : (b + 256 * fromLE t) / 256 = fromLE t := by omega
          simp only [leBytes, fromLE, h1, h2]
          exact congrArg (b :: ·) (ih t (by simpa using hlen)
            (fun x hx => h x (by simp [hx])))

/-! ## Two's-complement casts (`int64(u)`, `uint64(i)`, …) -/

/-- Go cast `int64(u)` of a `uint64` bit pattern. -/
def toInt64 (u : Nat) : Int := if u < 2 ^ 63 then (u : Int) else (u : Int) - 2 ^ 64

/-- Go cast `int32(u)` of a `uint32` bit pattern. -/
def toInt32 (u : Nat) : Int := if u < 2 ^ 31 then (u : Int) else (u : Int) - 2 ^ 32

/-- Go cast `int16(u)`. -/
def toInt16 (u : Nat) : Int := if u < 2 ^ 15 then (u : Int) else (u : Int) - 2 ^ 16

/-- Go cast `int8(u)`. -/
def toInt8 (u : Nat) : Int := if u < 2 ^ 7 then (u : Int) else (u : Int) - 2 ^ 8

/-- Go cast `uint64(i)` of a signed value. -/
def uint64OfInt (i : Int) : Nat := (i % 2 ^ 64).toNat

/-- Go cast `uint32(i)` of a signed value. -/
def uint32OfInt (i : Int) : Nat := (i % 2 ^ 32).toNat

theorem uint64OfInt_lt (i : Int) : uint64OfInt i < 2 ^ 64 := by
  simp only [uint64OfInt]
  omega

theorem uint32OfInt_lt (i : Int) : uint32OfInt i < 2 ^ 32 := by
  simp only [uint32OfInt]
  omega

theorem toInt64_uint64OfInt (i : Int) (h1 : -(2 ^ 63) ≤ i) (h2 : i < 2 ^ 63) :
    toInt64 (uint64OfInt i) = i := by
  simp only [toInt64, uint64OfInt]
  split <;> omega

theorem uint64OfInt_toInt64 (u : Nat) (h : u < 2 ^ 64) :
    uint64OfInt (toInt64 u) = u := by
  simp only [toInt64, uint64OfInt]
  split <;> omega

theorem toInt32_uint32OfInt (i : Int) (h1 : -(2 ^ 31) ≤ i) (h2 : i < 2 ^ 31) :
    toInt32 (uint32OfInt i) = i := by
  simp only [toInt32, uint32OfInt]
  split <;> omega

/-! ## The gopcua binary buffer (`ua.Buffer`), read side -/

/-- Read-side buffer state: unread bytes, consumed count (`Pos()`), sticky
error flag (`Error()`). -/
structure RBuf where
  rest : List Nat
  pos : Nat
  err : Bool
deriving Repr, DecidableEq

/-- `Buffer.ReadByte`: on error or exhausted input return 0 and flag the
error, otherwise consume one byte. -/
def RBuf.readByte (b : RBuf) : Nat × RBuf :=
  if b.err then (0, b)
  else
    match b.rest with
    | [] => (0, { b with err := true })
    | x :: t => (x, ⟨t, b.pos + 1, false⟩)

/-- `Buffer.ReadN`: consume exactly `n` bytes, or flag the error and
return nothing. -/
def RBuf.readN (b : RBuf) (n : Nat) : List Nat × RBuf :=
  if b.err then ([], b)
  else if n ≤ b.rest.length then
    (b.rest.take n, ⟨b.rest.drop n, b.pos + n, false⟩)
  else ([], { b with err := true })

/-- `Buffer.ReadUint16` (little endian; 0 on short input). -/
def RBuf.readUint16 (b : RBuf) : Nat × RBuf :=
  let r := b.readN 2
  (fromLE r.1, r.2)

/-- `Buffer.ReadUint32`. -/
def RBuf.readUint32 (b : RBuf) : Nat × RBuf :=
  let r := b.readN 4
  (fromLE r.1, r.2)

/-- `Buffer.ReadUint64`. -/
def RBuf.readUint64 (b : RBuf) : Nat × RBuf :=
  let r := b.readN 8
  (fromLE r.1, r.2)

/-- `Buffer.ReadInt64` (the int64 view of the 8 little-endian bytes). -/
def RBuf.readInt64 (b : RBuf) : Int × RBuf :=
  let r := b.readUint64
  (toInt64 r.1, r.2)

/-- `Buffer.ReadString`: a `0xFFFFFFFF` length prefix is the null string
(decoded as `""`), otherwise the length prefix counts the bytes. -/
def RBuf.readString (b : RBuf) : List Nat × RBuf :=
  let r := b.readUint32
  if r.1 = 4294967295 then ([], r.2)
  else r.2.readN r.1

/-- A run of `n` single-byte reads (the `for i := 8; i < 16; i++` loop in
`Decode`). -/
def RBuf.readByteList (b : RBuf) : Nat → List Nat × RBuf
  | 0 => ([], b)
  | n + 1 =>
      let r := b.readByte
      let t := r.2.readByteList n
      (r.1 :: t.1, t.2)

/-! ## Write side -/

/-- `Buffer.WriteByte` (a narrowing cast to `byte` where Go casts). -/
def writeByte (v : Nat) : List Nat := [v % 256]

/-- `Buffer.WriteUint16`. -/
def writeUint16 (v : Nat) : List Nat := leBytes 2 v

/-- `Buffer.WriteUint32`. -/
def writeUint32 (v : Nat) : List Nat := leBytes 4 v

/-- `Buffer.WriteUint64`. -/
def writeUint64 (v : Nat) : List Nat := leBytes 8 v

/-- `Buffer.WriteInt64` (writes the two's-complement bit pattern). -/
def writeInt64 (i : Int) : List Nat := leBytes 8 (uint64OfInt i)

/-- `Buffer.WriteString`: the empty string is written as the null marker
`0xFFFFFFFF`, otherwise length prefix + raw bytes. -/
def writeString (s : List Nat) : List Nat :=
  if s = [] then writeUint32 4294967295
  else writeUint32 s.length ++ s

/-- Well-formed wire string: its length must survive the `uint32` length
prefix without colliding with the null marker.  (Every real Go string is
far below this bound.) -/
def wfStr (s : List Nat) : Prop := s.length < 4294967295

@[simp] theorem writeByte_length (v : Nat) : (writeByte v).length = 1 := rfl

@[simp] theorem writeUint16_length (v : Nat) : (writeUint16 v).length = 2 := by
  simp [writeUint16]

@[simp] theorem writeUint32_length (v : Nat) : (writeUint32 v).length = 4 := by
  simp [writeUint32]

@[simp] theorem writeUint64_length (v : Nat) : (writeUint64 v).length = 8 := by
  simp [writeUint64]

@[simp] theorem writeInt64_length (i : Int) : (writeInt64 i).length = 8 := by
  simp [writeInt64]

theorem writeString_length (s : List Nat) (h : s ≠ []) :
    (writeString s).length = 4 + s.length := by
  simp [writeString, h]

/-! ## Read-after-write lemmas -/

theorem readN_append (w r : List Nat) (p : Nat) (n : Nat) (h : w.length = n) :
    RBuf.readN ⟨w ++ r, p, false⟩ n = (w, ⟨r, p + n, false⟩) := by
  subst h
  simp [RBuf.readN, List.take_left, List.drop_left]

theorem readByte_append (x : Nat) (r : List Nat) (p : Nat) :
    RBuf.readByte ⟨x :: r, p, false⟩ = (x, ⟨r, p + 1, false⟩) := by
  simp [RBuf.readByte]

theorem readUint16_append (v : Nat) (r : List Nat) (p : Nat) :
    RBuf.readUint16 ⟨writeUint16 v ++ r, p, false⟩ = (v % 2 ^ 16, ⟨r, p + 2, false⟩) := by
  have h := readN_append (leBytes 2 v) r p 2 (by simp)
  simp only [RBuf.readUint16, writeUint16, h, fromLE_leBytes]
  norm_num

theorem readUint32_append (v : Nat) (r : List Nat) (p : Nat) :
    RBuf.readUint32 ⟨writeUint32 v ++ r, p, false⟩ = (v % 2 ^ 32, ⟨r, p + 4, false⟩) := by
  have h := readN_append (leBytes 4 v) r p 4 (by simp)
  simp only [RBuf.readUint32, writeUint32, h, fromLE_leBytes]
  norm_num

theorem readUint64_append (v : Nat) (r : List Nat) (p : Nat) :
    RBuf.readUint64 ⟨writeUint64 v ++ r, p, false⟩ = (v % 2 ^ 64, ⟨r, p + 8, false⟩) := by
  have h := readN_append (leBytes 8 v) r p 8 (by simp)
  simp only [RBuf.readUint64, writeUint64, h, fromLE_leBytes]
  norm_num

theorem readInt64_append (i : Int) (r : List Nat) (p : Nat) :
    RBuf.readInt64 ⟨writeInt64 i ++ r, p, false⟩ =
      (toInt64 (uint64OfInt i), ⟨r, p + 8, false⟩) := by
  have h := readUint64_append (uint64OfInt i) r p
  simp only [writeUint64] at h
  simp only [RBuf.readInt64, writeInt64, h,
    Nat.mod_eq_of_lt (uint64OfInt_lt i)]

theorem readString_writeString (s : List Nat) (r : List Nat) (p : Nat)
    (h : wfStr s) :
    RBuf.readString ⟨writeString s ++ r, p, false⟩ =
      (s, ⟨r, p + (writeString s).length, false⟩) := by
  by_cases hs : s = []
  · subst hs
    have h4 := readUint32_append 4294967295 r p
    simp only [writeUint32] at h4
    norm_num at h4
    have hws : writeString ([] : List Nat) = leBytes 4 4294967295 := rfl
    simp only [RBuf.readString, hws, h4]
    norm_num [writeString, writeUint32]
  · have hlt : s.length < 2 ^ 32 := by
      unfold wfStr at h; omega
    have h4 := readUint32_append s.length (s ++ r) p
    rw [Nat.mod_eq_of_lt hlt] at h4
    simp only [writeUint32] at h4
    have hne : s.length ≠ 4294967295 := by unfold wfStr at h; omega
    have h5 := readN_append s r (p + 4) s.length rfl
    simp only [RBuf.readString, writeString, if_neg hs, writeUint32,
      List.append_assoc, h4, if_neg hne, h5, List.length_append, leBytes_length]
    rw [Nat.add_assoc]

theorem readUint32_exact (v : Nat) (p : Nat) :
    RBuf.readUint32 ⟨writeUint32 v, p, false⟩ = (v % 2 ^ 32, ⟨[], p + 4, false⟩) := by
  simpa using readUint32_append v [] p

theorem readByteList_append (w r : List Nat) (p : Nat) (n : Nat)
    (h : w.length = n) :
    RBuf.readByteList ⟨w ++ r, p, false⟩ n = (w, ⟨r, p + n, false⟩) := by
  induction n generalizing w p with
  | zero =>
      cases w
      · simp [RBuf.readByteList]
      · simp at h
  | succ n ih =>
      cases w with
      | nil => simp at h
      | cons x t =>
          simp only [RBuf.readByteList, List.cons_append, readByte_append,
            ih t (p + 1) (by simpa using h)]
          have e : p + 1 + n = p + (n + 1) := by omega
          rw [e]

/-! ## NodeId codec (`readNodeIDFromBuffer` / `writeNodeIDToBuffer`)

gopcua's `ua.NodeID` canonicalises numeric identifiers (two-byte,
four-byte and general numeric forms all expose only `Namespace()` and
`IntID()`), so the model is the tagged union of a numeric and a textual
identifier.  `IntID()` of a textual identifier is 0, exactly as in
gopcua. -/

inductive NodeId
  | numeric (ns : Nat) (id : Nat)
  | text (ns : Nat) (s : List Nat)
deriving Repr, DecidableEq

/-- `NodeID.Namespace()`. -/
def NodeId.nsIdx : NodeId → Nat
  | .numeric ns _ => ns
  | .text ns _ => ns

/-- `NodeID.IntID()` (0 for non-numeric identifiers). -/
def NodeId.intID : NodeId → Nat
  | .numeric _ id => id
  | .text _ _ => 0

/-- `readNodeIDFromBuffer`: dispatch on the low nibble of the encoding
byte; GUID/ByteString tags (and any other unknown tag) decode to the
null identifier. -/
def readNodeIDFromBuffer (b : RBuf) : NodeId × RBuf :=
  let e := b.readByte
  match e.1 % 16 with
  | 0 =>
      let i := e.2.readByte
      (.numeric 0 i.1, i.2)
  | 1 =>
      let ns := e.2.readByte
      let i := ns.2.readUint16
      (.numeric ns.1 i.1, i.2)
  | 2 =>
      let ns := e.2.readUint16
      let i := ns.2.readUint32
      (.numeric ns.1 i.1, i.2)
  | 3 =>
      let ns := e.2.readUint16
      let s := ns.2.readString
      (.text ns.1 s.1, s.2)
  | _ => (.numeric 0 0, e.2)

/-- `writeNodeIDToBuffer`: nil and null identifiers (namespace 0 and
`IntID()` 0) are written as TwoByte with identifier 0; otherwise the
smallest numeric form fits, or the String form. -/
def writeNodeIDToBuffer (o : Option NodeId) : List Nat :=
  match o with
  | none => writeByte 0 ++ writeByte 0
  | some nid =>
      if nid.nsIdx = 0 ∧ nid.intID = 0 then writeByte 0 ++ writeByte 0
      else
        match nid with
        | .text ns s => writeByte 3 ++ writeUint16 ns ++ writeString s
        | .numeric ns id =>
            if ns = 0 ∧ id ≤ 255 then writeByte 0 ++ writeByte id
            else if ns ≤ 255 ∧ id ≤ 65535 then
              writeByte 1 ++ writeByte ns ++ writeUint16 id
            else writeByte 2 ++ writeUint16 ns ++ writeUint32 id

/-- Well-formed identifier values: the bounds guaranteed by the Go types
(`uint16` namespace, `uint32` numeric id), and — for the round trip — a
textual identifier must not sit in namespace 0, because
`writeNodeIDToBuffer` collapses such an identifier to the null sentinel
(`IntID()` is 0 for every string NodeID). -/
def wfNodeId : NodeId → Prop
  | .numeric ns id => ns < 65536 ∧ id < 4294967296
  | .text ns s => 1 ≤ ns ∧ ns < 65536 ∧ wfStr s

theorem readNodeID_null (r : List Nat) (p : Nat) :
    readNodeIDFromBuffer ⟨(writeByte 0 ++ writeByte 0) ++ r, p, false⟩ =
      (.numeric 0 0, ⟨r, p + 2, false⟩) := by
  simp only [writeByte]
  norm_num [readNodeIDFromBuffer, readByte_append]

theorem readNodeID_writeNodeID (nid : NodeId) (r : List Nat) (p : Nat)
    (h : wfNodeId nid) :
    readNodeIDFromBuffer ⟨writeNodeIDToBuffer (some nid) ++ r, p, false⟩ =
      (nid, ⟨r, p + (writeNodeIDToBuffer (some nid)).length, false⟩) := by
  cases nid with
  | numeric ns id =>
      obtain ⟨hns, hid⟩ := h
      simp only [writeNodeIDToBuffer, NodeId.nsIdx, NodeId.intID, writeByte]
      split_ifs with c1 c2 c3
      · obtain ⟨e1, e2⟩ := c1
        subst e1; subst e2
        norm_num [readNodeIDFromBuffer, readByte_append]
      · obtain ⟨e1, hb⟩ := c2
        subst e1
        norm_num [readNodeIDFromBuffer, readByte_append,
          Nat.mod_eq_of_lt (show id < 256 by omega)]
      · obtain ⟨ha, hb⟩ := c3
        norm_num [readNodeIDFromBuffer, readByte_append, readUint16_append,
          Nat.mod_eq_of_lt (show ns < 256 by omega),
          Nat.mod_eq_of_lt (show id < 2 ^ 16 by omega)]
        omega
      · norm_num [readNodeIDFromBuffer, readByte_append, readUint16_append,
          readUint32_append, Nat.mod_eq_of_lt (show ns < 2 ^ 16 by omega),
          Nat.mod_eq_of_lt (show id < 2 ^ 32 by omega)]
        omega
  | text ns s =>
      obtain ⟨hns, hns2, hs⟩ := h
      simp only [writeNodeIDToBuffer, NodeId.nsIdx, NodeId.intID, writeByte]
      split_ifs with c1
      · exact absurd c1.1 (by omega)
      · norm_num [readNodeIDFromBuffer, readByte_append, readUint16_append,
          Nat.mod_eq_of_lt (show ns < 2 ^ 16 by omega),
          readString_writeString _ _ _ hs]
        omega

/-! ## Variant (scalar) codec for AdditionalData values -/

/-- A Go `interface{}` value as it can appear as an AdditionalData value.
`vnil` is Go `nil`; `vother` stands for any host value whose dynamic type
is outside every case of `writeVariantValue` (it hits the `default`
branch).  Floats are carried as IEEE bit patterns. -/
inductive GoVal
  | vnil
  | vbool (b : Bool)
  | vint8 (v : Int)
  | vbyte (v : Nat)
  | vint16 (v : Int)
  | vuint16 (v : Nat)
  | vint32 (v : Int)
  | vuint32 (v : Nat)
  | vint64 (v : Int)
  | vuint64 (v : Nat)
  | vfloat32 (bits : Nat)
  | vfloat64 (bits : Nat)
  | vstring (s : List Nat)
  | vint (v : Int)
  | vother
deriving Repr, DecidableEq

/-- `readVariantValue`: dispatch on the low 6 bits of the type byte;
every unrecognised type identifier yields Go `nil`. -/
def readVariantValue (b : RBuf) : GoVal × RBuf :=
  let t := b.readByte
  match t.1 % 64 with
  | 1 => let x := t.2.readByte; (.vbool (x.1 ≠ 0), x.2)
  | 2 => let x := t.2.readByte; (.vint8 (toInt8 x.1), x.2)
  | 3 => let x := t.2.readByte; (.vbyte x.1, x.2)
  | 4 => let x := t.2.readUint16; (.vint16 (toInt16 x.1), x.2)
  | 5 => let x := t.2.readUint16; (.vuint16 x.1, x.2)
  | 6 => let x := t.2.readUint32; (.vint32 (toInt32 x.1), x.2)
  | 7 => let x := t.2.readUint32; (.vuint32 x.1, x.2)
  | 8 => let x := t.2.readInt64; (.vint64 x.1, x.2)
  | 9 => let x := t.2.readInt64; (.vuint64 (uint64OfInt x.1), x.2)
  | 10 => let x := t.2.readUint32; (.vfloat32 x.1, x.2)
  | 11 => let x := t.2.readUint64; (.vfloat64 x.1, x.2)
  | 12 => let x := t.2.readString; (.vstring x.1, x.2)
  | _ => (.vnil, t.2)

/-- `writeVariantValue`: the supported host types, everything else is
written as the null type tag 0 with no payload. -/
def writeVariantValue (v : GoVal) : List Nat :=
  match v with
  | .vstring s => writeByte 12 ++ writeString s
  | .vbool b => writeByte 1 ++ (if b then writeByte 1 else writeByte 0)
  | .vint v => writeByte 6 ++ writeUint32 (uint32OfInt v)
  | .vint32 v => writeByte 6 ++ writeUint32 (uint32OfInt v)
  | .vint64 v => writeByte 8 ++ writeInt64 v
  | .vuint32 n => writeByte 7 ++ writeUint32 n
  | .vfloat64 bits => writeByte 11 ++ writeUint64 bits
  | _ => writeByte 0

/-- The dynamic types `writeVariantValue` encodes with a real type tag
(the `case` arms of the Go `switch`: string, bool, int, int32, int64,
uint32, float64). -/
def GoVal.supported : GoVal → Prop
  | .vstring _ => True
  | .vbool _ => True
  | .vint _ => True
  | .vint32 _ => True
  | .vint64 _ => True
  | .vuint32 _ => True
  | .vfloat64 _ => True
  | _ => False

/-- The value produced by decoding the encoding of `v`: supported types
other than Go `int` survive unchanged, `int` comes back as `int32`
(tag 6 is Int32), everything unsupported comes back as Go `nil`. -/
def variantRound : GoVal → GoVal
  | .vstring s => .vstring s
  | .vbool b => .vbool b
  | .vint v => .vint32 (toInt32 (uint32OfInt v))
  | .vint32 v => .vint32 (toInt32 (uint32OfInt v))
  | .vint64 v => .vint64 (toInt64 (uint64OfInt v))
  | .vuint32 n => .vuint32 (n % 2 ^ 32)
  | .vfloat64 bits => .vfloat64 (bits % 2 ^ 64)
  | _ => .vnil

/-- Value bounds guaranteed by the Go dynamic types. -/
def wfVal : GoVal → Prop
  | .vstring s => wfStr s
  | .vint v => -(2 ^ 63) ≤ v ∧ v < 2 ^ 63
  | .vint32 v => -(2 ^ 31) ≤ v ∧ v < 2 ^ 31
  | .vint64 v => -(2 ^ 63) ≤ v ∧ v < 2 ^ 63
  | .vuint32 n => n < 2 ^ 32
  | .vfloat64 bits => bits < 2 ^ 64
  | _ => True

/-- A value that decodes back to itself: well-formed, and a fixed point
of `variantRound` (this rules out Go `int` and the unsupported types). -/
def exactVal (v : GoVal) : Prop := wfVal v ∧ variantRound v = v

@[simp] theorem uint32OfInt_mod (i : Int) :
    uint32OfInt i % 4294967296 = uint32OfInt i := by
  have := uint32OfInt_lt i
  omega

@[simp] theorem uint64OfInt_mod (i : Int) :
    uint64OfInt i % 18446744073709551616 = uint64OfInt i := by
  have := uint64OfInt_lt i
  omega

theorem variantRound_unsupported (v : GoVal) (h : ¬v.supported) :
    variantRound v = .vnil := by
  cases v <;> simp_all [variantRound, GoVal.supported]

theorem readVariant_writeVariant (v : GoVal) (r : List Nat) (p : Nat)
    (h : wfVal v) :
    readVariantValue ⟨writeVariantValue v ++ r, p, false⟩ =
      (variantRound v, ⟨r, p + (writeVariantValue v).length, false⟩) := by
  cases v with
  | vstring s =>
      simp only [writeVariantValue, writeByte, variantRound]
      norm_num [readVariantValue, readByte_append, readString_writeString _ _ _ h]
      omega
  | vbool b =>
      cases b <;>
        norm_num [writeVariantValue, writeByte, variantRound, readVariantValue,
          readByte_append]
  | vint i =>
      simp only [writeVariantValue, writeByte, variantRound]
      norm_num [readVariantValue, readByte_append, readUint32_append,
        Nat.mod_eq_of_lt (uint32OfInt_lt i)]
  | vint32 i =>
      simp only [writeVariantValue, writeByte, variantRound]
      norm_num [readVariantValue, readByte_append, readUint32_append,
        Nat.mod_eq_of_lt (uint32OfInt_lt i)]
  | vint64 i =>
      simp only [writeVariantValue, writeByte, variantRound]
      norm_num [readVariantValue, readByte_append, readInt64_append]
  | vuint32 n =>
      simp only [writeVariantValue, writeByte, variantRound]
      norm_num [readVariantValue, readByte_append, readUint32_append]
  | vfloat64 bits =>
      simp only [writeVariantValue, writeByte, variantRound]
      norm_num [readVariantValue, readByte_append, readUint64_append]
  | vnil =>
      norm_num [writeVariantValue, writeByte, variantRound, readVariantValue,
        readByte_append]
  | vint8 i =>
      norm_num [writeVariantValue, writeByte, variantRound, readVariantValue,
        readByte_append]
  | vbyte n =>
      norm_num [writeVariantValue, writeByte, variantRound, readVariantValue,
        readByte_append]
  | vint16 i =>
      norm_num [writeVariantValue, writeByte, variantRound, readVariantValue,
        readByte_append]
  | vuint16 n =>
      norm_num [writeVariantValue, writeByte, variantRound, readVariantValue,
        readByte_append]
  | vuint64 n =>
      norm_num [writeVariantValue, writeByte, variantRound, readVariantValue,
        readByte_append]
  | vfloat32 b =>
      norm_num [writeVariantValue, writeByte, variantRound, readVariantValue,
        readByte_append]
  | vother =>
      norm_num [writeVariantValue, writeByte, variantRound, readVariantValue,
        readByte_append]

/-! ## AdditionalData (NameValuePair array) -/

/-- Encoding of the NameValuePair sequence (the `for name, value :=
range l.AdditionalData` loop body: `WriteString(name)` +
`writeVariantValue`).  A Go map iterates in an unspecified order; the
association-list model fixes one order, which is irrelevant for the map
contents. -/
def writeAttrPairs : List (List Nat × GoVal) → List Nat
  | [] => []
  | (k, v) :: t => writeString k ++ writeVariantValue v ++ writeAttrPairs t

/-- The decode loop over `count` NameValuePairs: read a name and a
variant value, drop the pair when the name is empty (`if name != ""`). -/
def readAttrPairs (b : RBuf) : Nat → List (List Nat × GoVal) × RBuf
  | 0 => ([], b)
  | n + 1 =>
      let nm := b.readString
      let v := readVariantValue nm.2
      let t := readAttrPairs v.2 n
      if nm.1 = [] then t else ((nm.1, v.1) :: t.1, t.2)

theorem readAttrPairs_key_ne_nil (b : RBuf) (n : Nat) :
    ∀ q ∈ (readAttrPairs b n).1, q.1 ≠ [] := by
  induction n generalizing b with
  | zero => simp [readAttrPairs]
  | succ n ih =>
      intro q hq
      simp only [readAttrPairs] at hq
      by_cases hc : (b.readString).1 = []
      · rw [if_pos hc] at hq
        exact ih _ q hq
      · rw [if_neg hc] at hq
        simp only [List.mem_cons] at hq
        rcases hq with hq | hq
        · subst hq
          simpa using hc
        · exact ih _ q hq

theorem readAttrPairs_writeAttrPairs (l : List (List Nat × GoVal))
    (r : List Nat) (p : Nat)
    (h : ∀ q ∈ l, q.1 ≠ [] ∧ wfStr q.1 ∧ wfVal q.2) :
    readAttrPairs ⟨writeAttrPairs l ++ r, p, false⟩ l.length =
      (l.map (fun q => (q.1, variantRound q.2)),
       ⟨r, p + (writeAttrPairs l).length, false⟩) := by
  induction l generalizing r p with
  | nil => simp [readAttrPairs, writeAttrPairs]
  | cons q t ih =>
      obtain ⟨k, v⟩ := q
      obtain ⟨hk, hkw, hvw⟩ := h (k, v) (by simp)
      have ht : ∀ q ∈ t, q.1 ≠ [] ∧ wfStr q.1 ∧ wfVal q.2 :=
        fun q hq => h q (by simp [hq])
      simp only [writeAttrPairs, List.length_cons, readAttrPairs,
        List.append_assoc, readString_writeString _ _ _ hkw,
        readVariant_writeVariant _ _ _ hvw, ih _ _ ht, if_neg hk,
        List.map_cons, List.length_append, Nat.add_assoc]

theorem readAttrPairs_writeAttrPairs_exact (l : List (List Nat × GoVal))
    (p : Nat) (h : ∀ q ∈ l, q.1 ≠ [] ∧ wfStr q.1 ∧ wfVal q.2) :
    readAttrPairs ⟨writeAttrPairs l, p, false⟩ l.length =
      (l.map (fun q => (q.1, variantRound q.2)),
       ⟨[], p + (writeAttrPairs l).length, false⟩) := by
  simpa using readAttrPairs_writeAttrPairs l [] p h

/-! ## The LogRecord itself (`LogRecordExtObj`) -/

/-- A Go `time.Time` as this codec can observe it: either the zero value
(never set by `Decode` when the tick count is non-positive) or an
instant with the given `UnixNano`. -/
inductive GoTime
  | zero
  | unix (nanos : Int)
deriving Repr, DecidableEq

/-- `time.Time.UnixNano()`.  For the Go zero time (year 1) the
nanosecond count overflows int64; the wrapped value is the well-known
constant below. -/
def GoTime.goUnixNano : GoTime → Int
  | .zero => -6795364578871345152
  | .unix n => n

/-- `unixToOpcuaTicksOffset`: 100ns ticks between 1601-01-01 and
1970-01-01. -/
def unixToOpcuaTicksOffset : Int := 116444736000000000

/-- The Go struct `LogRecordExtObj`.  `eventTypeNode`/`sourceNode` are
`*ua.NodeID` (nil = `none`); `additionalData` is the
`map[string]interface{}` as an association list, `none` for the nil
map. -/
structure LogRecordExtObj where
  time : GoTime
  severity : Nat
  message : List Nat
  eventTypeNode : Option NodeId
  sourceNode : Option NodeId
  sourceName : List Nat
  traceIDBytes : List Nat
  spanID : Nat
  parentSpanID : Nat
  parentIdentifier : List Nat
  additionalData : Option (List (List Nat × GoVal))
deriving Repr, DecidableEq

/-- Step 8 of `Decode` (lines 126–138): read the Int32 pair count via
`ReadUint32`, treat a non-positive count as no array (the Go field stays
a nil map), otherwise run the pair loop. -/
def decodeAdditionalData (b : RBuf) (cntRaw : Nat) :
    Option (List (List Nat × GoVal)) × RBuf :=
  let count := toInt32 cntRaw
  if 0 < count then
    let pairs := readAttrPairs b count.toNat
    (some pairs.1, pairs.2)
  else (none, b)

theorem decodeAdditionalData_keys (b : RBuf) (cnt : Nat)
    (al : List (List Nat × GoVal))
    (h : (decodeAdditionalData b cnt).1 = some al) : ∀ q ∈ al, q.1 ≠ [] := by
  intro q hq
  simp only [decodeAdditionalData] at h
  split at h
  · injection h with h2
    subst h2
    exact readAttrPairs_key_ne_nil _ _ q hq
  · exact absurd h (by simp)

/-- `LogRecordExtObj.Decode`: returns the decoded record, the number of
bytes consumed (`buf.Pos()`) and the error flag (`buf.Error()`). -/
def LogRecordExtObj.decode (bytes : List Nat) : LogRecordExtObj × Nat × Bool :=
  let b0 : RBuf := ⟨bytes, 0, false⟩
  -- 1. DateTime
  let rTicks := b0.readInt64
  let time := if 0 < rTicks.1 then
      GoTime.unix ((rTicks.1 - unixToOpcuaTicksOffset) * 100)
    else GoTime.zero
  -- 2. Severity
  let rSev := rTicks.2.readUint16
  -- 3./4. EventType and SourceNode NodeIds
  let rET := readNodeIDFromBuffer rSev.2
  let rSN := readNodeIDFromBuffer rET.2
  -- 5. SourceName
  let rName := rSN.2.readString
  -- 6. LocalizedText: mask byte, optional locale (discarded), optional text
  let rMask := rName.2.readByte
  let bLoc := if rMask.1 % 2 = 1 then (rMask.2.readString).2 else rMask.2
  let rMsg := if rMask.1 / 2 % 2 = 1 then bLoc.readString else ([], bLoc)
  -- 7. TraceContext: Guid (4+2+2+8) + SpanId + ParentSpanId + ParentIdentifier
  let rD1 := rMsg.2.readUint32
  let rD2 := rD1.2.readUint16
  let rD3 := rD2.2.readUint16
  let rTail := rD3.2.readByteList 8
  let traceBytes := leBytes 4 rD1.1 ++ leBytes 2 rD2.1 ++ leBytes 2 rD3.1 ++ rTail.1
  let rSpan := rTail.2.readInt64
  let rPSpan := rSpan.2.readInt64
  let rPid := rPSpan.2.readString
  -- 8. AdditionalData: Int32 count (read as UInt32) + pairs
  let rCnt := rPid.2.readUint32
  let rAttrs := decodeAdditionalData rCnt.2 rCnt.1
  ({ time := time
     severity := rSev.1
     message := rMsg.1
     eventTypeNode := some rET.1
     sourceNode := some rSN.1
     sourceName := rName.1
     traceIDBytes := traceBytes
     spanID := uint64OfInt rSpan.1
     parentSpanID := uint64OfInt rPSpan.1
     parentIdentifier := rPid.1
     additionalData := rAttrs.1 },
   rAttrs.2.pos, rAttrs.2.err)

/-- `uint32(len(l.AdditionalData))` (a nil map has length 0). -/
def attrCount (o : Option (List (List Nat × GoVal))) : Nat := (o.getD []).length

/-- `LogRecordExtObj.Encode` (write errors never occur, so only the
bytes are returned). -/
def LogRecordExtObj.encode (l : LogRecordExtObj) : List Nat :=
  -- 1. DateTime: ticks = UnixNano()/100 + offset (Go `/` truncates)
  writeInt64 (Int.tdiv l.time.goUnixNano 100 + unixToOpcuaTicksOffset)
  -- 2. Severity
  ++ writeUint16 l.severity
  -- 3./4. NodeIds
  ++ writeNodeIDToBuffer l.eventTypeNode
  ++ writeNodeIDToBuffer l.sourceNode
  -- 5. SourceName
  ++ writeString l.sourceName
  -- 6. LocalizedText: mask 0x02 (text only) + message
  ++ writeByte 2
  ++ writeString l.message
  -- 7. TraceContext: Guid chunks re-read from the byte array, tail bytes
  ++ writeUint32 (fromLE (l.traceIDBytes.take 4))
  ++ writeUint16 (fromLE ((l.traceIDBytes.drop 4).take 2))
  ++ writeUint16 (fromLE ((l.traceIDBytes.drop 6).take 2))
  ++ (l.traceIDBytes.drop 8).map (fun b => b % 256)
  ++ writeInt64 (toInt64 l.spanID)
  ++ writeInt64 (toInt64 l.parentSpanID)
  ++ writeString l.parentIdentifier
  -- 8. AdditionalData
  ++ writeUint32 (attrCount l.additionalData)
  ++ writeAttrPairs (l.additionalData.getD [])

/-! ## Round trip of the LogRecord codec -/

/-- Attribute-map well-formedness: a representable Go map (distinct
keys), non-empty when allocated at all (the decoder cannot produce an
allocated empty map from an encoding with count = its size), with a
count below `int32` overflow, non-empty keys and value bounds. -/
def wfAttrs : Option (List (List Nat × GoVal)) → Prop
  | none => True
  | some l => l ≠ [] ∧ l.length < 2 ^ 31 ∧
      (∀ q ∈ l, q.1 ≠ [] ∧ wfStr q.1 ∧ wfVal q.2) ∧
      l.Pairwise (fun a b => a.1 ≠ b.1)

/-- Records in decoded canonical form: the bounds the Go field types
guarantee, a time that is a non-negative whole number of 100ns ticks,
identifiers present (`Decode` always materialises both `*ua.NodeID`
fields) and not a namespace-0 text identifier (which `Encode` collapses
to the null sentinel). -/
def wfRecord (l : LogRecordExtObj) : Prop :=
  (∃ n : Int, l.time = .unix n ∧ 0 ≤ n ∧ (100 : Int) ∣ n ∧ n < 2 ^ 63) ∧
  l.severity < 65536 ∧
  wfStr l.message ∧
  (∃ nid, l.eventTypeNode = some nid ∧ wfNodeId nid) ∧
  (∃ nid, l.sourceNode = some nid ∧ wfNodeId nid) ∧
  wfStr l.sourceName ∧
  l.traceIDBytes.length = 16 ∧ (∀ b ∈ l.traceIDBytes, b < 256) ∧
  l.spanID < 2 ^ 64 ∧ l.parentSpanID < 2 ^ 64 ∧
  wfStr l.parentIdentifier ∧
  wfAttrs l.additionalData

theorem toInt32_small (u : Nat) (h : u < 2 ^ 31) : toInt32 u = u := by
  unfold toInt32
  rw [if_pos h]

/-- The transformation `Decode ∘ Encode` applies to the attribute map:
each value goes through `variantRound`, the map itself is preserved. -/
def roundAttrs (o : Option (List (List Nat × GoVal))) :
    Option (List (List Nat × GoVal)) :=
  o.map (List.map (fun q => (q.1, variantRound q.2)))

theorem trace_reassemble (tb : List Nat) :
    tb.take 4 ++ ((tb.drop 4).take 2 ++ ((tb.drop 6).take 2 ++ tb.drop 8)) = tb := by
  have h6 : tb.drop 6 = (tb.drop 4).drop 2 := by
    rw [List.drop_drop]
  have h8 : tb.drop 8 = (tb.drop 6).drop 2 := by
    rw [List.drop_drop]
  rw [h8, h6, List.take_append_drop, List.take_append_drop, List.take_append_drop]

theorem map_mod_eq_self (l : List Nat) (h : ∀ b ∈ l, b < 256) :
    l.map (fun b => b % 256) = l := by
  induction l with
  | nil => rfl
  | cons b t ih =>
      simp only [List.map_cons, Nat.mod_eq_of_lt (h b (by simp)),
        ih (fun x hx => h x (by simp [hx]))]

/-- Master round-trip lemma: decoding the encoding of a well-formed
record gives back the record, with every attribute value passed through
`variantRound` (supported values survive, Go `int` comes back as
`int32`, unsupported values come back as `nil`), consuming exactly the
encoded bytes with no buffer error. -/
theorem decode_encode (l : LogRecordExtObj) (h : wfRecord l) :
    LogRecordExtObj.decode l.encode =
      ({ l with additionalData := roundAttrs l.additionalData },
       l.encode.length, false) := by
  obtain ⟨⟨n, htime, hn0, hndvd, hnlt⟩, hsev, hmsg, ⟨et, hET, hETwf⟩,
    ⟨sn, hSN, hSNwf⟩, hname, htblen, htbwf, hspan, hpspan, hpid, hattrs⟩ := h
  obtain ⟨k, hk⟩ := hndvd
  have hk0 : 0 ≤ k := by nlinarith
  have hklt : k < 2 ^ 63 := by nlinarith
  have htdiv : Int.tdiv n 100 = k := by
    rw [hk]
    exact Int.mul_tdiv_cancel_left k (by norm_num)
  -- tick bounds
  have htick1 : -(2 ^ 63) ≤ Int.tdiv n 100 + unixToOpcuaTicksOffset := by
    rw [htdiv]; unfold unixToOpcuaTicksOffset; omega
  have htick2 : Int.tdiv n 100 + unixToOpcuaTicksOffset < 2 ^ 63 := by
    rw [htdiv]; unfold unixToOpcuaTicksOffset; omega
  have htickpos : (0 : Int) < Int.tdiv n 100 + unixToOpcuaTicksOffset := by
    rw [htdiv]; unfold unixToOpcuaTicksOffset; omega
  have htickrt : ((Int.tdiv n 100 + unixToOpcuaTicksOffset) -
      unixToOpcuaTicksOffset) * 100 = n := by
    rw [htdiv, hk]; ring
  -- trace chunk facts
  have htk4 : (l.traceIDBytes.take 4).length = 4 := by
    rw [List.length_take, htblen]
    omega
  have htk46 : ((l.traceIDBytes.drop 4).take 2).length = 2 := by
    rw [List.length_take, List.length_drop, htblen]
    omega
  have htk68 : ((l.traceIDBytes.drop 6).take 2).length = 2 := by
    rw [List.length_take, List.length_drop, htblen]
    omega
  have htk8 : (l.traceIDBytes.drop 8).length = 8 := by
    rw [List.length_drop, htblen]
  
  have hw4 : ∀ b ∈ l.traceIDBytes.take 4, b < 256 :=
    fun b hb => htbwf b (List.mem_of_mem_take hb)
  have hw46 : ∀ b ∈ (l.traceIDBytes.drop 4).take 2, b < 256 :=
    fun b hb => htbwf b (List.mem_of_mem_drop (List.mem_of_mem_take hb))
  have hw68 : ∀ b ∈ (l.traceIDBytes.drop 6).take 2, b < 256 :=
    fun b hb => htbwf b (List.mem_of_mem_drop (List.mem_of_mem_take hb))
  have hw8 : ∀ b ∈ l.traceIDBytes.drop 8, b < 256 :=
    fun b hb => htbwf b (List.mem_of_mem_drop hb)
  have hm4 : fromLE (l.traceIDBytes.take 4) % 2 ^ 32 = fromLE (l.traceIDBytes.take 4) := by
    have := fromLE_lt _ hw4
    rw [htk4] at this
    exact Nat.mod_eq_of_lt (by norm_num at this ⊢; omega)
  have hm46 : fromLE ((l.traceIDBytes.drop 4).take 2) % 2 ^ 16 =
      fromLE ((l.traceIDBytes.drop 4).take 2) := by
    have := fromLE_lt _ hw46
    rw [htk46] at this
    exact Nat.mod_eq_of_lt (by norm_num at this ⊢; omega)
  have hm68 : fromLE ((l.traceIDBytes.drop 6).take 2) % 2 ^ 16 =
      fromLE ((l.traceIDBytes.drop 6).take 2) := by
    have := fromLE_lt _ hw68
    rw [htk68] at this
    exact Nat.mod_eq_of_lt (by norm_num at this ⊢; omega)
  have hlb4 : leBytes 4 (fromLE (l.traceIDBytes.take 4)) = l.traceIDBytes.take 4 :=
    leBytes_fromLE _ _ htk4 hw4
  have hlb46 : leBytes 2 (fromLE ((l.traceIDBytes.drop 4).take 2)) =
      (l.traceIDBytes.drop 4).take 2 :=
    leBytes_fromLE _ _ htk46 hw46
  have hlb68 : leBytes 2 (fromLE ((l.traceIDBytes.drop 6).take 2)) =
      (l.traceIDBytes.drop 6).take 2 :=
    leBytes_fromLE _ _ htk68 hw68
  have hmap8 : (l.traceIDBytes.drop 8).map (fun b => b % 256) = l.traceIDBytes.drop 8 :=
    map_mod_eq_self _ hw8
  -- span facts
  have hsp : uint64OfInt (toInt64 l.spanID) = l.spanID := uint64OfInt_toInt64 _ hspan
  have hpsp : uint64OfInt (toInt64 l.parentSpanID) = l.parentSpanID :=
    uint64OfInt_toInt64 _ hpspan
  have hmask256 : (2 : Nat) % 256 = 2 := rfl
  have hmaskbit0 : ¬((2 : Nat) % 2 = 1) := by norm_num
  have hmaskbit1 : (2 : Nat) / 2 % 2 = 1 := rfl
  cases hADeq : l.additionalData with
  | none =>
      have hcnt0 : attrCount none % 2 ^ 32 = 0 := by norm_num [attrCount]
      have hcntneg : ¬((0 : Int) < toInt32 0) := by norm_num [toInt32]
      have hmapnone :
          roundAttrs (none : Option (List (List Nat × GoVal))) = none := rfl
      simp only [LogRecordExtObj.decode, LogRecordExtObj.encode, htime, hET, hSN,
        hADeq, GoTime.goUnixNano, writeByte, List.append_assoc,
        List.singleton_append, List.cons_append, List.nil_append, hmapnone,
        Option.getD, writeAttrPairs, List.append_nil,
        readInt64_append, toInt64_uint64OfInt _ htick1 htick2,
        htickpos, ite_true, htickrt,
        readUint16_append, Nat.mod_eq_of_lt (show l.severity < 2 ^ 16 by omega),
        readNodeID_writeNodeID _ _ _ hETwf, readNodeID_writeNodeID _ _ _ hSNwf,
        readString_writeString _ _ _ hname, readByte_append, hmask256,
        hmaskbit0, ite_false, hmaskbit1, readString_writeString _ _ _ hmsg,
        readUint32_append, hm4, readUint16_append, hm46, hm68,
        readByteList_append _ _ _ _ htk8, hlb4, hlb46, hlb68, hmap8,
        trace_reassemble, readInt64_append, hsp,
        readString_writeString _ _ _ hpid, readUint32_exact,
        decodeAdditionalData, hcnt0, hcntneg, hpsp,
        List.length_append, writeInt64_length, writeUint16_length,
        writeUint32_length, writeByte_length, List.length_singleton,
        List.length_map, List.length_drop, htblen,
        LogRecordExtObj.mk.injEq, Prod.mk.injEq, RBuf.mk.injEq]
      norm_num
      omega
  | some al =>
      rw [hADeq] at hattrs
      obtain ⟨halne, hallen, halq, _⟩ := hattrs
      have hcmod : attrCount (some al) % 2 ^ 32 = al.length := by
        have : attrCount (some al) = al.length := rfl
        rw [this]
        exact Nat.mod_eq_of_lt (by norm_num; omega)
      have hct : toInt32 al.length = (al.length : Int) := toInt32_small _ hallen
      have halpos : (0 : Int) < (al.length : Int) := by
        have : al.length ≠ 0 := by
          intro hz
          exact halne (List.length_eq_zero.mp hz)
        omega
      have hcoe : ((al.length : Int)).toNat = al.length := by omega
      have hmapsome :
          roundAttrs (some al) =
            some (al.map (fun q => (q.1, variantRound q.2))) := rfl
      simp only [LogRecordExtObj.decode, LogRecordExtObj.encode, htime, hET, hSN,
        hADeq, GoTime.goUnixNano, writeByte, List.append_assoc,
        List.singleton_append, List.cons_append, List.nil_append, hmapsome,
        Option.getD,
        readInt64_append, toInt64_uint64OfInt _ htick1 htick2,
        htickpos, ite_true, htickrt,
        readUint16_append, Nat.mod_eq_of_lt (show l.severity < 2 ^ 16 by omega),
        readNodeID_writeNodeID _ _ _ hETwf, readNodeID_writeNodeID _ _ _ hSNwf,
        readString_writeString _ _ _ hname, readByte_append, hmask256,
        hmaskbit0, ite_false, hmaskbit1, readString_writeString _ _ _ hmsg,
        readUint32_append, hm4, readUint16_append, hm46, hm68,
        readByteList_append _ _ _ _ htk8, hlb4, hlb46, hlb68, hmap8,
        trace_reassemble, readInt64_append, hsp,
        readString_writeString _ _ _ hpid, readUint32_exact,
        decodeAdditionalData, hcmod, hct, halpos,
        hcoe, hpsp, readAttrPairs_writeAttrPairs_exact _ _ halq,
        List.length_append, writeInt64_length, writeUint16_length,
        writeUint32_length, writeByte_length, List.length_singleton,
        List.length_map, List.length_drop, htblen,
        LogRecordExtObj.mk.injEq, Prod.mk.injEq, RBuf.mk.injEq]
      norm_num
      omega

/-! ## Severity mapper (`severityToText`, transformer.go) -/

/-- `severityToText`: OPC UA Part 26 §5.4 Table 5 severity tiers. -/
def severityToText (severity : Nat) : String :=
  if 1 ≤ severity ∧ severity ≤ 50 then "Debug"
  else if 51 ≤ severity ∧ severity ≤ 100 then "Information"
  else if 101 ≤ severity ∧ severity ≤ 150 then "Notice"
  else if 151 ≤ severity ∧ severity ≤ 200 then "Warning"
  else if 201 ≤ severity ∧ severity ≤ 250 then "Error"
  else if 251 ≤ severity ∧ severity ≤ 300 then "Critical"
  else if 301 ≤ severity ∧ severity ≤ 400 then "Alert"
  else if 401 ≤ severity ∧ severity ≤ 1000 then "Emergency"
  else "Unspecified"

/-! ## Hex trace-context mappers (`TraceIDHex` / `SpanIDHex`)

Output strings are byte lists of ASCII codes (`48`–`57` = `0`–`9`,
`97`–`102` = `a`–`f`). -/

/-- One lowercase hex digit character. -/
def hexDigit (n : Nat) : Nat := if n < 10 then 48 + n else 87 + n

/-- `hex.EncodeToString`: two lowercase hex digits per byte. -/
def hexOfBytes : List Nat → List Nat
  | [] => []
  | b :: t => hexDigit (b / 16) :: hexDigit (b % 16) :: hexOfBytes t

/-- `fmt.Sprintf("%016x", v)` for a `uint64`: exactly 16 nibbles, most
significant first, zero padded. -/
def hex16OfUint64 (v : Nat) : List Nat :=
  (List.range 16).map (fun i => hexDigit (v / 16 ^ (15 - i) % 16))

/-- `LogRecordExtObj.TraceIDHex`: empty when `SpanID == 0`. -/
def LogRecordExtObj.traceIDHex (l : LogRecordExtObj) : List Nat :=
  if l.spanID = 0 then [] else hexOfBytes l.traceIDBytes

/-- `LogRecordExtObj.SpanIDHex`: empty when `SpanID == 0`. -/
def LogRecordExtObj.spanIDHex (l : LogRecordExtObj) : List Nat :=
  if l.spanID = 0 then [] else hex16OfUint64 l.spanID

/-- A lowercase hexadecimal ASCII character. -/
def isLowerHexChar (c : Nat) : Prop := (48 ≤ c ∧ c ≤ 57) ∨ (97 ≤ c ∧ c ≤ 102)

theorem hexDigit_isLowerHex (n : Nat) (h : n < 16) : isLowerHexChar (hexDigit n) := by
  unfold hexDigit isLowerHexChar
  split <;> omega

theorem hexOfBytes_length (l : List Nat) : (hexOfBytes l).length = 2 * l.length := by
  induction l with
  | nil => rfl
  | cons b t ih => simp [hexOfBytes, ih]; omega

theorem hexOfBytes_isLowerHex (l : List Nat) (h : ∀ b ∈ l, b < 256) :
    ∀ c ∈ hexOfBytes l, isLowerHexChar c := by
  induction l with
  | nil => simp [hexOfBytes]
  | cons b t ih =>
      intro c hc
      have hb : b < 256 := h b (by simp)
      simp only [hexOfBytes, List.mem_cons] at hc
      rcases hc with hc | hc | hc
      · subst hc; exact hexDigit_isLowerHex _ (by omega)
      · subst hc; exact hexDigit_isLowerHex _ (by omega)
      · exact ih (fun x hx => h x (by simp [hx])) c hc

theorem hex16OfUint64_length (v : Nat) : (hex16OfUint64 v).length = 16 := by
  simp [hex16OfUint64]

theorem hex16OfUint64_isLowerHex (v : Nat) :
    ∀ c ∈ hex16OfUint64 v, isLowerHexChar c := by
  intro c hc
  simp only [hex16OfUint64, List.mem_map] at hc
  obtain ⟨i, _, hi⟩ := hc
  subst hi
  exact hexDigit_isLowerHex _ (Nat.mod_lt _ (by norm_num))

/-! ## Record retriever (`GetRecords` / `callGetRecordsMethod`)

The remote side is a function from the request (`maxRecords`, the
continuation point) to a call outcome.  The continuation point
(`[]byte`) is `Option Nat` — `none` is the empty byte string, which both
the client (`len(cp) == 0`) and the protocol treat as "no token". -/

/-- One array element of the `LogRecords` output argument
(`[]*ua.ExtensionObject`). -/
inductive ExtEntry
  /-- a nil `*ua.ExtensionObject` (skipped by `parseExtensionObjectArray`) -/
  | nilObj
  /-- `obj.Value` was decoded by the registered gopcua codec -/
  | decoded (r : LogRecordExtObj)
  /-- `obj.Value` is the raw binary body (type-id mismatch fallback) -/
  | rawBytes (b : List Nat)
  /-- `obj.Value` is nil or an unsupported dynamic type -/
  | badValue
deriving Repr, DecidableEq

/-- `parseLogRecordFromExtensionObject` (without the projection to the
flat `OPCUALogRecord`, which is total and error-free): the decoded case
succeeds, the raw-bytes case runs `LogRecordExtObj.Decode` and fails
exactly when the buffer errors, anything else is an error. -/
def parseLogRecordFromExtensionObject : ExtEntry → Except Unit LogRecordExtObj
  | .decoded r => .ok r
  | .rawBytes b =>
      if b = [] then .error ()
      else
        let d := LogRecordExtObj.decode b
        if d.2.2 then .error () else .ok d.1
  | _ => .error ()

/-- `parseExtensionObjectArray`: skip nil entries, skip (with a warning)
entries that fail to parse, keep the rest in order; never fails. -/
def parseExtensionObjectArray : List ExtEntry → List LogRecordExtObj
  | [] => []
  | .nilObj :: t => parseExtensionObjectArray t
  | e :: t =>
      match parseLogRecordFromExtensionObject e with
      | .ok r => r :: parseExtensionObjectArray t
      | .error _ => parseExtensionObjectArray t

/-- The outcome of one remote `Call` of the GetRecords method. -/
inductive CallResult
  | success (entries : List ExtEntry) (cpOut : Option Nat)
  /-- `StatusBadInvalidArgument` -/
  | invalidArgument
  /-- `StatusBadContinuationPointInvalid` -/
  | staleContinuation
  /-- transport error or any other bad status -/
  | failure

/-- A remote source: the response as a function of `maxRecords` and the
continuation point sent. -/
abbrev Srv := Nat → Option Nat → CallResult

/-- The error classes `callGetRecordsMethod` can surface to its caller. -/
inductive CallErr
  | invalidArgument
  | staleContinuation
  | callFailed
deriving Repr, DecidableEq

/-- The body of `opcuaClient.callGetRecordsMethod` at an empty
continuation point: a stale report is NOT retried here, because
`len(continuationPoint) > 0` fails.  Also returns how many remote calls
were made. -/
def callGetRecordsFresh (srv : Srv) (req : Nat) :
    Except CallErr (List LogRecordExtObj × Option Nat) × Nat :=
  match srv req none with
  | .success entries cpOut => (.ok (parseExtensionObjectArray entries, cpOut), 1)
  | .invalidArgument => (.error .invalidArgument, 1)
  | .staleContinuation => (.error .staleContinuation, 1)
  | .failure => (.error .callFailed, 1)

/-- `opcuaClient.callGetRecordsMethod`: one remote call; on a stale
continuation point with a non-empty token, retry exactly once from
scratch.  The Go function is literally recursive, but the recursive call
always passes a nil continuation point, so that one possible recursion
step is exactly `callGetRecordsFresh` (where a second stale report
becomes an error instead of recursing further). -/
def callGetRecordsMethod (srv : Srv) (req : Nat) (cp : Option Nat) :
    Except CallErr (List LogRecordExtObj × Option Nat) × Nat :=
  match cp with
  | none => callGetRecordsFresh srv req
  | some _ =>
      match srv req cp with
      | .success entries cpOut => (.ok (parseExtensionObjectArray entries, cpOut), 1)
      | .invalidArgument => (.error .invalidArgument, 1)
      | .staleContinuation =>
          let r := callGetRecordsFresh srv req
          (r.1, r.2 + 1)
      | .failure => (.error .callFailed, 1)

/-- The per-source pagination loop inside `opcuaClient.GetRecords`
(client.go lines 168–201), accumulating records and the remote-call
count.  `fuel` bounds the number of loop iterations examined (the Go
loop is unbounded); every theorem quantifies over sufficient fuel.
`quota - nodeRecords` is the Go `uint32(recordsPerNode - nodeRecords)`,
which is non-negative whenever the loop re-enters (the loop breaks as
soon as `nodeRecords >= recordsPerNode`). -/
def getRecordsLoop (srv : Srv) (quota : Nat) :
    Nat → Option Nat → Nat → List LogRecordExtObj → Nat →
      List LogRecordExtObj × Nat
  | 0, _, _, acc, calls => (acc, calls)
  | fuel + 1, cp, nodeRecords, acc, calls =>
      let c := callGetRecordsMethod srv (quota - nodeRecords) cp
      match c.1 with
      | .error _ => (acc, calls + c.2)
      | .ok (records, nextCP) =>
          let acc2 := acc ++ records
          let nr := nodeRecords + records.length
          if nextCP = none ∨ quota ≤ nr then (acc2, calls + c.2)
          else getRecordsLoop srv quota fuel nextCP nr acc2 (calls + c.2)

/-- `opcuaClient.GetRecords`: fail only when not connected or no
LogObject nodes are configured; otherwise visit every source in order,
give each `max(maxRecords/len, 1)` quota, and aggregate whatever each
contributed — a failing source only breaks its own loop. -/
def GetRecords (sources : List Srv) (maxRecords : Nat) (fuel : Nat)
    (connected : Bool) : Except String (List LogRecordExtObj) :=
  if ¬connected then .error "client not connected"
  else if sources.length = 0 then .error "no LogObject nodes configured"
  else
    let recordsPerNode := max (maxRecords / sources.length) 1
    .ok (sources.foldl
      (fun acc srv => acc ++ (getRecordsLoop srv recordsPerNode fuel none 0 [] 0).1)
      [])

/-- A canonical distinct record per index (used to track order and
duplication through the loop). -/
def mkRec (i : Nat) : LogRecordExtObj :=
  ⟨.zero, i, [], none, none, [], List.replicate 16 0, 0, 0, [], none⟩

/-- Compliant paged source, modelled from the spec and the repo's mock
server (`mock_server.go getFilteredRecords`): it owns `n` records,
serves at most `m` per call (the spec's "per-call cap of M"; the mock
caps at the requested count), resumes at the continuation point's
offset, and returns a non-empty continuation point exactly when records
remain. -/
def pagedServer (n m : Nat) : Srv := fun req cp =>
  let pos := cp.getD 0
  let cnt := min req (min m (n - pos))
  .success ((List.range' pos cnt).map (fun i => .decoded (mkRec i)))
    (if pos + cnt < n then some (pos + cnt) else none)

theorem parseArray_decoded (rs : List LogRecordExtObj) :
    parseExtensionObjectArray (rs.map .decoded) = rs := by
  induction rs with
  | nil => rfl
  | cons r t ih =>
      simp only [List.map_cons, parseExtensionObjectArray,
        parseLogRecordFromExtensionObject, ih]

theorem parseArray_eq_filterMap (l : List ExtEntry) :
    parseExtensionObjectArray l =
      l.filterMap (fun e => (parseLogRecordFromExtensionObject e).toOption) := by
  induction l with
  | nil => rfl
  | cons e t ih =>
      cases e with
      | nilObj => simp [parseExtensionObjectArray, parseLogRecordFromExtensionObject,
          List.filterMap_cons, Except.toOption, ih]
      | decoded r => simp [parseExtensionObjectArray, parseLogRecordFromExtensionObject,
          List.filterMap_cons, Except.toOption, ih]
      | badValue => simp [parseExtensionObjectArray, parseLogRecordFromExtensionObject,
          List.filterMap_cons, Except.toOption, ih]
      | rawBytes b =>
          simp only [parseExtensionObjectArray, List.filterMap_cons]
          by_cases hb : b = []

          · simp [parseLogRecordFromExtensionObject, hb, Except.toOption, ih]
          · by_cases hd : (LogRecordExtObj.decode b).2.2
            · simp [parseLogRecordFromExtensionObject, hb, hd, Except.toOption, ih]
            · simp [parseLogRecordFromExtensionObject, hb, hd, Except.toOption, ih]

theorem foldl_append_collect (f : Srv → List LogRecordExtObj) (l : List Srv)
    (a : List LogRecordExtObj) :
    l.foldl (fun acc s => acc ++ f s) a = a ++ (l.map f).flatten := by
  induction l generalizing a with
  | nil => simp
  | cons s t ih => simp [List.foldl_cons, ih]

/-- `GetRecords` on a connected client with at least one source never
returns an error: it is the concatenation of the per-source loop
results, whatever each source does. -/
theorem getRecords_eq_ok (sources : List Srv) (maxRecords fuel : Nat)
    (hne : sources ≠ []) :
    GetRecords sources maxRecords fuel true =
      .ok ((sources.map (fun s =>
        (getRecordsLoop s (max (maxRecords / sources.length) 1)
          fuel none 0 [] 0).1)).flatten) := by
  have hlen : ¬sources.length = 0 := by
    simpa using hne
  simp only [GetRecords, Bool.not_true, if_false, if_neg hlen,
    foldl_append_collect, List.nil_append, not_true_eq_false]

theorem callGetRecords_success (srv : Srv) (req : Nat) (cp : Option Nat)
    (entries : List ExtEntry) (cpOut : Option Nat)
    (h : srv req cp = .success entries cpOut) :
    callGetRecordsMethod srv req cp =
      (.ok (parseExtensionObjectArray entries, cpOut), 1) := by
  cases cp <;> simp [callGetRecordsMethod, callGetRecordsFresh, h]

theorem callGetRecords_stale_retry (srv : Srv) (req t : Nat)
    (h1 : srv req (some t) = .staleContinuation) :
    callGetRecordsMethod srv req (some t) =
      ((callGetRecordsFresh srv req).1, (callGetRecordsFresh srv req).2 + 1) := by
  simp [callGetRecordsMethod, h1]

theorem callGetRecords_stale_none (srv : Srv) (req : Nat)
    (h1 : srv req none = .staleContinuation) :
    callGetRecordsMethod srv req none = (.error .staleContinuation, 1) := by
  simp [callGetRecordsMethod, callGetRecordsFresh, h1]

/-- The pagination loop against a compliant paged source, from an
arbitrary resume point: it delivers the remaining records in order and
makes `ceil(remaining/m)` further calls. -/
theorem pagedLoop_general (n m quota : Nat) (hm : 1 ≤ m) (hq : n ≤ quota)
    (fuel : Nat) :
    ∀ (cp : Option Nat) (acc : List LogRecordExtObj) (calls : Nat),
      cp.getD 0 < n → n - cp.getD 0 ≤ fuel →
      getRecordsLoop (pagedServer n m) quota fuel cp (cp.getD 0) acc calls =
        (acc ++ (List.range' (cp.getD 0) (n - cp.getD 0)).map mkRec,
         calls + (n - cp.getD 0 + m - 1) / m) := by
  induction fuel with
  | zero =>
      intro cp acc calls hpos hfuel
      omega
  | succ f ih =>
      intro cp acc calls hpos hfuel
      set pos := cp.getD 0 with hposdef
      have hsrv : pagedServer n m (quota - pos) cp =
          .success ((List.range' pos (min m (n - pos))).map (fun i => .decoded (mkRec i)))
            (if pos + min m (n - pos) < n then some (pos + min m (n - pos)) else none) := by
        simp only [pagedServer, ← hposdef]
        have : min (quota - pos) (min m (n - pos)) = min m (n - pos) := by omega
        rw [this]
      have hparse : parseExtensionObjectArray
          ((List.range' pos (min m (n - pos))).map (fun i => .decoded (mkRec i))) =
          (List.range' pos (min m (n - pos))).map mkRec := by
        have hcompose : (List.range' pos (min m (n - pos))).map
            (fun i => ExtEntry.decoded (mkRec i)) =
            ((List.range' pos (min m (n - pos))).map mkRec).map .decoded := by
          rw [List.map_map]
          rfl
        rw [hcompose]
        exact parseArray_decoded _
      have hcall := callGetRecords_success _ _ _ _ _ hsrv
      rw [hparse] at hcall
      by_cases hlast : n - pos <= m
      · -- final page: the rest is delivered, empty continuation point, break
        have hcnt : m ⊓ (n - pos) = n - pos := by omega
        have hcp2 : ¬(pos + (n - pos) < n) := by omega
        rw [hcnt, if_neg hcp2] at hcall
        simp only [getRecordsLoop, hcall]
        have hdiv : (n - pos + m - 1) / m = 1 := by
          have h1 : n - pos + m - 1 = (n - pos - 1) + m := by omega
          rw [h1, Nat.add_div_right _ (by omega), Nat.div_eq_of_lt (by omega)]
        simp only [true_or, ite_true, hdiv, List.length_map, List.length_range']
      · -- a full page of m records, non-empty continuation point, loop again
        have hcnt : m ⊓ (n - pos) = m := by omega
        have hcp2 : pos + m < n := by omega
        rw [hcnt, if_pos hcp2] at hcall
        simp only [getRecordsLoop, hcall, List.length_map, List.length_range']
        have hbreak : ¬((some (pos + m) = none) ∨ quota ≤ pos + m) := by
          push_neg
          refine ⟨by simp, by omega⟩
        rw [if_neg hbreak]
        have hih := ih (some (pos + m)) (acc ++ (List.range' pos m).map mkRec)
          (calls + 1) (by simpa using hcp2) (by simp; omega)
        simp only [Option.getD_some] at hih
        rw [hih]
        have hlensum : n - (pos + m) + m = n - pos := by omega
        have hr0 := List.range'_append pos m (n - (pos + m)) 1
        simp only [one_mul] at hr0
        have hrange : (List.range' pos m).map mkRec ++
            (List.range' (pos + m) (n - (pos + m))).map mkRec =
            (List.range' pos (n - pos)).map mkRec := by
          rw [← List.map_append, hr0, hlensum]
        have hcalls : calls + 1 + (n - (pos + m) + m - 1) / m =
            calls + (n - pos + m - 1) / m := by
          have h1 : n - (pos + m) + m - 1 = (n - pos - m - 1) + m := by omega
          have h2 : n - pos + m - 1 = (n - pos - 1) + m := by omega
          have h3 : n - pos - 1 = (n - pos - m - 1) + m := by omega
          have hm0 : 0 < m := by omega
          rw [h1, h2, h3]
          simp only [Nat.add_div_right _ hm0]
          omega
        rw [List.append_assoc, hrange, hcalls]

/-! ## Further helper lemmas for the claims -/

/-- The value shapes a `readVariantValue` of a recognised tag can
produce (Go `nil` and the encode-only shapes excluded). -/
def GoVal.isScalar : GoVal → Bool
  | .vnil => false
  | .vother => false
  | .vint _ => false
  | _ => true

theorem writeVariant_unsupported (v : GoVal) (h : ¬v.supported) :
    writeVariantValue v = [0] := by
  cases v <;> simp_all [GoVal.supported, writeVariantValue, writeByte]

theorem mkRec_injective : Function.Injective mkRec := by
  intro a b hab
  simpa [mkRec] using congrArg LogRecordExtObj.severity hab

/-! ## Claim theorems -/

/-- **C2.**  The severity classification `severityToText` is a total
function on the integers (in particular defined on all of `[0, 1001]`)
and returns exactly the spec's tier table: 1–50 Debug, 51–100
Information, 101–150 Notice, 151–200 Warning, 201–250 Error, 251–300
Critical, 301–400 Alert, 401–1000 Emergency, and any other value
(including 0 and 1001) Unspecified.  Being a Lean function it cannot
panic or fail. -/
theorem claim2_severity_table (s : Nat) :
    ((1 ≤ s ∧ s ≤ 50) → severityToText s = "Debug") ∧
    ((51 ≤ s ∧ s ≤ 100) → severityToText s = "Information") ∧
    ((101 ≤ s ∧ s ≤ 150) → severityToText s = "Notice") ∧
    ((151 ≤ s ∧ s ≤ 200) → severityToText s = "Warning") ∧
    ((201 ≤ s ∧ s ≤ 250) → severityToText s = "Error") ∧
    ((251 ≤ s ∧ s ≤ 300) → severityToText s = "Critical") ∧
    ((301 ≤ s ∧ s ≤ 400) → severityToText s = "Alert") ∧
    ((401 ≤ s ∧ s ≤ 1000) → severityToText s = "Emergency") ∧
    ((s = 0 ∨ 1000 < s) → severityToText s = "Unspecified") := by
  refine ⟨fun hh => ?_, fun hh => ?_, fun hh => ?_, fun hh => ?_, fun hh => ?_,
    fun hh => ?_, fun hh => ?_, fun hh => ?_, fun hh => ?_⟩ <;>
    (simp only [severityToText]; split_ifs <;> first | rfl | omega)

/-- Witness for C2 at the boundary inputs 0, 1001 (Unspecified) and a
tier member. -/
theorem claim2_severity_table_witness :
    severityToText 0 = "Unspecified" ∧ severityToText 1001 = "Unspecified" ∧
    severityToText 300 = "Critical" :=
  ⟨(claim2_severity_table 0).2.2.2.2.2.2.2.2 (Or.inl rfl),
   (claim2_severity_table 1001).2.2.2.2.2.2.2.2 (Or.inr (by norm_num)),
   (claim2_severity_table 300).2.2.2.2.2.1 (by norm_num)⟩

/-- **C5.**  When the span id is zero both hex mappers return the empty
string regardless of the trace-id bytes; when it is non-zero,
`TraceIDHex` is the lowercase hex of the 16 trace-id bytes (32
characters) and `SpanIDHex` the 16-character lowercase hex of the span
id value. -/
theorem claim5_trace_absence_sentinel (l : LogRecordExtObj) :
    (l.spanID = 0 → l.traceIDHex = [] ∧ l.spanIDHex = []) ∧
    (l.spanID ≠ 0 →
      l.traceIDHex = hexOfBytes l.traceIDBytes ∧
      l.spanIDHex = hex16OfUint64 l.spanID ∧
      l.spanIDHex.length = 16 ∧
      (∀ c ∈ l.spanIDHex, isLowerHexChar c) ∧
      (l.traceIDBytes.length = 16 → l.traceIDHex.length = 32) ∧
      ((∀ b ∈ l.traceIDBytes, b < 256) → ∀ c ∈ l.traceIDHex, isLowerHexChar c)) := by
  constructor
  · intro h0
    simp [LogRecordExtObj.traceIDHex, LogRecordExtObj.spanIDHex, h0]
  · intro hne
    have ht : l.traceIDHex = hexOfBytes l.traceIDBytes := by
      simp [LogRecordExtObj.traceIDHex, hne]
    have hs : l.spanIDHex = hex16OfUint64 l.spanID := by
      simp [LogRecordExtObj.spanIDHex, hne]
    refine ⟨ht, hs, ?_, ?_, ?_, ?_⟩
    · rw [hs]
      exact hex16OfUint64_length _
    · rw [hs]
      exact hex16OfUint64_isLowerHex _
    · intro h16
      simp [ht, hexOfBytes_length, h16]
    · intro hwf
      rw [ht]
      exact hexOfBytes_isLowerHex _ hwf

/-- The spec's concrete trace context: trace id bytes 01..10, span id
`0x0102030405060708`. -/
def witTraceRec : LogRecordExtObj :=
  ⟨.unix 0, 300, [], none, none, [],
   [1, 2, 3, 4, 5, 6, 7, 8, 9, 10, 11, 12, 13, 14, 15, 16],
   72623859790382856, 0, [], none⟩

/-- Witness for C5: the non-zero branch at the spec's concrete scenario,
with both hex strings spelled out
(`0102030405060708090a0b0c0d0e0f10` / `0102030405060708` in ASCII). -/
theorem claim5_trace_absence_sentinel_witness :
    witTraceRec.spanID ≠ 0 ∧
    witTraceRec.traceIDHex = hexOfBytes witTraceRec.traceIDBytes ∧
    witTraceRec.spanIDHex.length = 16 ∧
    witTraceRec.traceIDHex =
      [48, 49, 48, 50, 48, 51, 48, 52, 48, 53, 48, 54, 48, 55, 48, 56,
       48, 57, 48, 97, 48, 98, 48, 99, 48, 100, 48, 101, 48, 102, 49, 48] ∧
    witTraceRec.spanIDHex =
      [48, 49, 48, 50, 48, 51, 48, 52, 48, 53, 48, 54, 48, 55, 48, 56] := by
  have h := (claim5_trace_absence_sentinel witTraceRec).2 (by decide)
  exact ⟨by decide, h.1, h.2.2.1, by decide, by decide⟩

/-- **C6 counterexample.**  A textual identifier in namespace 0 does not
round trip: `writeNodeIDToBuffer` collapses it to the null sentinel
(`IntID()` is 0 for every string NodeID), so it decodes as the null
numeric identifier, not the original text. -/
theorem claim6_identifier_roundtrip_counterexample :
    (readNodeIDFromBuffer
      ⟨writeNodeIDToBuffer (some (.text 0 [97])), 0, false⟩).1 ≠
      NodeId.text 0 [97] := by decide

/-- **C6 amended.**  Every well-formed identifier — numeric in any of
the three numeric wire forms, or textual with non-zero namespace —
round trips to its original namespace and value; null and absent
identifiers are always encoded as the compact numeric form with value 0,
which decodes to the null identifier; but a textual identifier in
namespace 0 is collapsed to the null sentinel by Encode. -/
theorem claim6_identifier_roundtrip :
    (∀ (nid : NodeId) (r : List Nat) (p : Nat), wfNodeId nid →
      readNodeIDFromBuffer ⟨writeNodeIDToBuffer (some nid) ++ r, p, false⟩ =
        (nid, ⟨r, p + (writeNodeIDToBuffer (some nid)).length, false⟩)) ∧
    writeNodeIDToBuffer none = [0, 0] ∧
    writeNodeIDToBuffer (some (.numeric 0 0)) = [0, 0] ∧
    (∀ (r : List Nat) (p : Nat),
      readNodeIDFromBuffer ⟨[0, 0] ++ r, p, false⟩ =
        (.numeric 0 0, ⟨r, p + 2, false⟩)) ∧
    (∀ s : List Nat, writeNodeIDToBuffer (some (.text 0 s)) = [0, 0]) := by
  refine ⟨fun nid r p h => readNodeID_writeNodeID nid r p h, by decide, by decide,
    ?_, ?_⟩
  · intro r p
    simpa [writeByte] using readNodeID_null r p
  · intro s
    simp [writeNodeIDToBuffer, NodeId.nsIdx, NodeId.intID, writeByte]

/-- Witness for C6: all four wire forms and the null at concrete
identifiers. -/
theorem claim6_identifier_roundtrip_witness :
    (readNodeIDFromBuffer
      ⟨writeNodeIDToBuffer (some (.numeric 0 5)) ++ [9], 0, false⟩).1 =
        .numeric 0 5 ∧
    (readNodeIDFromBuffer
      ⟨writeNodeIDToBuffer (some (.numeric 3 700)) ++ [], 0, false⟩).1 =
        .numeric 3 700 ∧
    (readNodeIDFromBuffer
      ⟨writeNodeIDToBuffer (some (.numeric 300 70000)) ++ [], 0, false⟩).1 =
        .numeric 300 70000 ∧
    (readNodeIDFromBuffer
      ⟨writeNodeIDToBuffer (some (.text 1 [97, 98])) ++ [], 0, false⟩).1 =
        .text 1 [97, 98] := by
  refine ⟨?_, ?_, ?_, ?_⟩ <;>
    rw [claim6_identifier_roundtrip.1 _ _ _ (by norm_num [wfNodeId, wfStr])]

/-- **C8.**  Decoding a Variant whose tag byte's low 6 bits are not one
of the recognised type identifiers 1–12 yields Go `nil` (consuming only
the tag byte, without failing); `nil` is distinct from every valid
scalar value; and decoding a whole well-formed record never sets the
buffer error, whatever its attribute values are encoded as (unsupported
values are written with the null tag 0, which is itself unrecognised on
decode). -/
theorem claim8_unknown_tag_yields_nil :
    (∀ (t : Nat) (rest : List Nat) (p : Nat), t % 64 = 0 ∨ 13 ≤ t % 64 →
      readVariantValue ⟨t :: rest, p, false⟩ = (.vnil, ⟨rest, p + 1, false⟩)) ∧
    (∀ v : GoVal, v.isScalar = true → v ≠ .vnil) ∧
    (∀ l : LogRecordExtObj, wfRecord l →
      (LogRecordExtObj.decode l.encode).2.2 = false) := by
  refine ⟨?_, ?_, ?_⟩
  · intro t rest p h
    simp only [readVariantValue, readByte_append]
    have h64 : t % 64 < 64 := Nat.mod_lt _ (by norm_num)
    generalize hg : t % 64 = m at h h64 ⊢
    interval_cases m <;> first | rfl | omega
  · intro v hv
    cases v <;> simp_all [GoVal.isScalar]
  · intro l h
    rw [decode_encode l h]

/-- Witness for C8: tag byte 13 (first unrecognised identifier) and tag
byte 0 (the null type written for unsupported values). -/
theorem claim8_unknown_tag_yields_nil_witness :
    readVariantValue ⟨[13, 7, 7], 0, false⟩ = (.vnil, ⟨[7, 7], 1, false⟩) ∧
    readVariantValue ⟨[0, 5], 2, false⟩ = (.vnil, ⟨[5], 3, false⟩) :=
  ⟨claim8_unknown_tag_yields_nil.1 13 [7, 7] 0 (by norm_num),
   claim8_unknown_tag_yields_nil.1 0 [5] 2 (by norm_num)⟩

/-- A record with both identifier fields nil (absent), otherwise
trivial: the decoder materialises the null identifier in their place, so
this record does not survive its own encoding. -/
def cexNilIdRecord : LogRecordExtObj :=
  ⟨.unix 0, 1, [], none, none, [], List.replicate 16 0, 0, 0, [], none⟩

/-- **C1 counterexample.**  `decode(encode(r)) == r` fails for a
constructible record with an absent (nil) identifier: `Decode` always
produces non-nil `*ua.NodeID` values (the null identifier `ns=0,i=0`),
so the nil field does not come back. -/
theorem claim1_roundtrip_counterexample :
    (LogRecordExtObj.decode cexNilIdRecord.encode).1 ≠ cexNilIdRecord := by
  decide

/-- **C1 amended.**  The round trip holds for every record in decoded
canonical form: identifiers present (possibly the null identifier) and
not namespace-0 text, the time a non-negative whole multiple of 100 ns,
strings below the `uint32` length prefix, the well-typed field bounds,
the attribute map nil when empty with non-empty distinct keys, and
attribute values that are fixed points of the decode-of-encode value
mapping (which excludes Go `int` and the unsupported types).  Decoding
then reproduces the record field for field, consumes exactly the encoded
bytes, and reports no error. -/
theorem claim1_roundtrip_canonical (l : LogRecordExtObj) (h : wfRecord l)
    (hx : ∀ al, l.additionalData = some al → ∀ q ∈ al, exactVal q.2) :
    LogRecordExtObj.decode l.encode = (l, l.encode.length, false) := by
  have hmain := decode_encode l h
  have hAD : roundAttrs l.additionalData = l.additionalData := by
    cases hADeq : l.additionalData with
    | none => rfl
    | some al =>
        have hcongr : ∀ q ∈ al, (fun q => (q.1, variantRound q.2)) q = id q := by
          intro q hq
          have hex := hx al hADeq q hq
          simp only [hex.2, id, Prod.mk.eta]
        have hmapid : al.map (fun q => (q.1, variantRound q.2)) = al := by
          rw [List.map_congr_left hcongr, List.map_id]
        simp [roundAttrs, hmapid]
  rw [hmain, hAD]

/-- A canonical record exercising every field: time 100 ns after the
epoch, both identifiers, unicode-free but non-empty strings, a trace
context and one string attribute. -/
def witRoundtripRec : LogRecordExtObj :=
  ⟨.unix 100, 300, [104, 105], some (.numeric 0 0), some (.numeric 1 100),
   [83], [1, 2, 3, 4, 5, 6, 7, 8, 9, 10, 11, 12, 13, 14, 15, 16],
   72623859790382856, 0, [], some [([107], .vstring [118])]⟩

/-- Witness for C1 (amended) at a concrete canonical record. -/
theorem claim1_roundtrip_canonical_witness :
    LogRecordExtObj.decode witRoundtripRec.encode =
      (witRoundtripRec, witRoundtripRec.encode.length, false) :=
  claim1_roundtrip_canonical witRoundtripRec
    (by
      refine ⟨⟨100, rfl, by norm_num, ⟨1, by norm_num⟩, by norm_num⟩,
        by norm_num [witRoundtripRec], by norm_num [witRoundtripRec, wfStr],
        ⟨.numeric 0 0, rfl, by norm_num [wfNodeId]⟩,
        ⟨.numeric 1 100, rfl, by norm_num [wfNodeId]⟩,
        by norm_num [witRoundtripRec, wfStr], by decide, by decide,
        by norm_num [witRoundtripRec], by norm_num [witRoundtripRec],
        by norm_num [witRoundtripRec, wfStr], ?_⟩
      refine ⟨by decide, by norm_num, ?_, by decide⟩
      intro q hq
      simp only [List.mem_singleton] at hq
      subst hq
      exact ⟨by decide, by norm_num [wfStr], by norm_num [wfVal, wfStr]⟩)
    (by
      intro al hal q hq
      simp only [witRoundtripRec, Option.some.injEq] at hal
      subst hal
      simp only [List.mem_singleton] at hq
      subst hq
      exact ⟨by norm_num [wfVal, wfStr], by decide⟩)

/-- **C3 counterexample.**  With zero available records the loop still
issues one remote call (the first call is unconditional; only its
response can stop the loop), not `ceil(0/M) = 0` calls. -/
theorem claim3_pagination_counterexample :
    getRecordsLoop (pagedServer 0 1) 1 1 none 0 [] 0 = ([], 1) ∧
    (0 + 1 - 1) / 1 = 0 := by
  constructor
  · decide
  · decide

/-- **C3 amended.**  Against one compliant source holding `n ≥ 1`
records with a per-call cap of `m`, and a quota of at least `n`, the
pagination loop issues exactly `⌈n/m⌉` remote calls and returns exactly
the `n` records in their original order with zero duplicates; with
`n = 0` a single call occurs and no records are returned. -/
theorem claim3_pagination_termination (n m quota fuel : Nat) (hm : 1 ≤ m)
    (hq : n ≤ quota) (hfuel : n ≤ fuel) :
    (1 ≤ n →
      getRecordsLoop (pagedServer n m) quota fuel none 0 [] 0 =
        ((List.range' 0 n).map mkRec, (n + m - 1) / m) ∧
      ((List.range' 0 n).map mkRec).length = n ∧
      ((List.range' 0 n).map mkRec).Nodup) ∧
    (n = 0 → 1 ≤ fuel →
      getRecordsLoop (pagedServer n m) quota fuel none 0 [] 0 = ([], 1)) := by
  constructor
  · intro hn
    refine ⟨?_, by simp, ?_⟩
    · have h := pagedLoop_general n m quota hm hq fuel none [] 0
        (by simpa using hn) (by simpa using hfuel)
      simpa using h
    · refine List.Nodup.map mkRec_injective ?_
      simp [List.nodup_range']
  · intro hn hfuel1
    subst hn
    match fuel, hfuel1 with
    | f + 1, _ =>
        have hsrv : pagedServer 0 m (quota - 0) none = .success [] none := by
          simp [pagedServer]
        have hcall := callGetRecords_success _ _ _ _ _ hsrv
        simp only [getRecordsLoop, hcall, parseExtensionObjectArray]
        simp

/-- Witness for C3 at `n = 5`, `m = 2`: three calls, records 0–4 in
order. -/
theorem claim3_pagination_termination_witness :
    getRecordsLoop (pagedServer 5 2) 5 5 none 0 [] 0 =
      ((List.range' 0 5).map mkRec, 3) := by
  have h := ((claim3_pagination_termination 5 2 5 5 (by norm_num) (by norm_num)
    (by norm_num)).1 (by norm_num)).1
  norm_num at h
  exact h

/-- A source holding two records (per-call cap 1) whose continuation
points always go stale: the first call delivers record 0 and a token,
every resumed call reports the token stale, and the retried fresh call
delivers record 0 again. -/
def staleOnResumeServer : Srv := fun _ cp =>
  match cp with
  | none => .success [.decoded (mkRec 0)] (some 1)
  | some _ => .staleContinuation

/-- **C4 counterexample.**  After a stale token and the clean restart
the aggregate is NOT the complete result set exactly once: pages
accumulated before the stale signal are kept, so record 0 is delivered
twice and record 1 never. -/
theorem claim4_stale_recovery_counterexample :
    (getRecordsLoop staleOnResumeServer 2 2 none 0 [] 0).1 =
      [mkRec 0, mkRec 0] ∧
    ¬(getRecordsLoop staleOnResumeServer 2 2 none 0 [] 0).1.Nodup := by
  constructor
  · decide
  · decide

/-- **C4 amended.**  A stale report on a call holding a non-empty token
causes exactly one retry from scratch, whose own result (and only it) is
returned by that call — records from pages before the stale signal stay
in the aggregate, so the source's total can duplicate already-seen
records rather than yield the complete set exactly once.  A stale report
on the retry (or any call with an empty token) fails the source with no
further retry; and every configured source's contribution to GetRecords
is computed independently, so other sources still return their
records. -/
theorem claim4_stale_token_recovery :
    (∀ (srv : Srv) (req t : Nat) (entries : List ExtEntry) (cpOut : Option Nat),
      srv req (some t) = .staleContinuation →
      srv req none = .success entries cpOut →
      callGetRecordsMethod srv req (some t) =
        (.ok (parseExtensionObjectArray entries, cpOut), 2)) ∧
    (∀ (srv : Srv) (req t : Nat),
      srv req (some t) = .staleContinuation →
      srv req none = .staleContinuation →
      callGetRecordsMethod srv req (some t) = (.error .staleContinuation, 2)) ∧
    (∀ (sources : List Srv) (maxRecords fuel : Nat), sources ≠ [] →
      GetRecords sources maxRecords fuel true =
        .ok ((sources.map (fun s =>
          (getRecordsLoop s (max (maxRecords / sources.length) 1)
            fuel none 0 [] 0).1)).flatten)) := by
  refine ⟨?_, ?_, fun sources maxRecords fuel h => getRecords_eq_ok _ _ _ h⟩
  · intro srv req t entries cpOut h1 h2
    simp [callGetRecordsMethod, callGetRecordsFresh, h1, h2]
  · intro srv req t h1 h2
    simp [callGetRecordsMethod, callGetRecordsFresh, h1, h2]

/-- Witness for C4: the retry path at the concrete stale source, and a
two-source GetRecords where the stale source is skipped but the paged
source still returns its record. -/
theorem claim4_stale_token_recovery_witness :
    callGetRecordsMethod staleOnResumeServer 5 (some 1) =
      (.ok (parseExtensionObjectArray [.decoded (mkRec 0)], some 1), 2) ∧
    GetRecords [fun _ cp => staleOnResumeServer 1 cp, pagedServer 1 1] 2 2 true =
      .ok (([(fun _ cp => staleOnResumeServer 1 cp), pagedServer 1 1].map
        (fun s => (getRecordsLoop s (max (2 / 2) 1) 2 none 0 [] 0).1)).flatten) :=
  ⟨claim4_stale_token_recovery.1 staleOnResumeServer 5 1 _ _ rfl rfl,
   claim4_stale_token_recovery.2.2 _ 2 2 (by simp)⟩

/-- A source whose every call fails at the transport/status level. -/
def failingServer : Srv := fun _ _ => .failure

/-- **C7.**  Per-record failures are absorbed during parsing (the parse
of an ExtensionObject array is exactly the successful parses, in order —
never an error), and on a connected client with at least one configured
source `GetRecords` always returns `ok`, whatever any source does: a
failing source only ends its own loop. -/
theorem claim7_failures_absorbed :
    (∀ entries : List ExtEntry,
      parseExtensionObjectArray entries =
        entries.filterMap
          (fun e => (parseLogRecordFromExtensionObject e).toOption)) ∧
    (∀ (sources : List Srv) (maxRecords fuel : Nat), sources ≠ [] →
      (GetRecords sources maxRecords fuel true).isOk = true) := by
  refine ⟨parseArray_eq_filterMap, ?_⟩
  intro sources maxRecords fuel h
  rw [getRecords_eq_ok sources maxRecords fuel h]
  rfl

/-- Witness for C7: a bad record inside a batch is skipped without
error, and GetRecords over a failing source still returns ok. -/
theorem claim7_failures_absorbed_witness :
    parseExtensionObjectArray
      [.badValue, .decoded (mkRec 5), .nilObj, .rawBytes [1]] = [mkRec 5] ∧
    (GetRecords [failingServer] 3 3 true).isOk = true := by
  constructor
  · rw [claim7_failures_absorbed.1]
    decide
  · exact claim7_failures_absorbed.2 [failingServer] 3 3 (by simp)

/-- A record whose only attribute has the empty string as its name. -/
def emptyKeyRecord : LogRecordExtObj :=
  ⟨.unix 0, 1, [], some (.numeric 0 0), some (.numeric 0 0), [],
   List.replicate 16 0, 0, 0, [], some [([], .vbool true)]⟩

set_option maxHeartbeats 1600000 in
set_option maxRecDepth 4000 in
/-- **C9.**  After any `Decode`, the AdditionalData map never contains
an empty-string key (a pair whose decoded name is empty is silently
dropped), and consequently a record encoded with an empty attribute key
does not survive a decode of its own encoding. -/
theorem claim9_no_empty_attribute_keys :
    (∀ (bytes : List Nat) (al : List (List Nat × GoVal)),
      (LogRecordExtObj.decode bytes).1.additionalData = some al →
      ∀ q ∈ al, q.1 ≠ []) ∧
    (LogRecordExtObj.decode emptyKeyRecord.encode).1 ≠ emptyKeyRecord := by
  constructor
  · intro bytes al h q hq
    simp only [LogRecordExtObj.decode] at h
    exact decodeAdditionalData_keys _ _ _ h q hq
  · decide

/-- Witness bytes for C9: the encoding of a record with the single
attribute key `"k"`. -/
def c9bytes : List Nat :=
  LogRecordExtObj.encode
    ⟨.unix 0, 1, [], some (.numeric 0 0), some (.numeric 0 0), [],
     List.replicate 16 0, 0, 0, [], some [([107], .vbool true)]⟩

set_option maxHeartbeats 1600000 in
set_option maxRecDepth 4000 in
/-- Witness for C9: a decode that produces a pair, whose key the theorem
shows non-empty. -/
theorem claim9_no_empty_attribute_keys_witness :
    (LogRecordExtObj.decode c9bytes).1.additionalData =
      some [([107], GoVal.vbool true)] ∧ ([107] : List Nat) ≠ [] :=
  ⟨by decide,
   claim9_no_empty_attribute_keys.1 c9bytes [([107], .vbool true)] (by decide)
     ([107], .vbool true) (by decide)⟩

/-- **C10.**  Encode never drops an attribute pair: the decode of the
encoding maps the attribute list pair-for-pair (exactly one name/value
pair per key, same order, same count), and a value whose host type is
outside {string, bool, int, int32, int64, uint32, float64} is written as
the null type tag 0 and comes back as that key mapped to Go `nil` — the
pair does not vanish. -/
theorem claim10_encode_never_drops_pairs (l : LogRecordExtObj)
    (h : wfRecord l) (al : List (List Nat × GoVal))
    (hal : l.additionalData = some al) :
    (LogRecordExtObj.decode l.encode).1.additionalData =
      some (al.map (fun q => (q.1, variantRound q.2))) ∧
    (al.map (fun q => (q.1, variantRound q.2))).length = al.length ∧
    (∀ q ∈ al, ¬q.2.supported →
      writeVariantValue q.2 = [0] ∧
      (q.1, GoVal.vnil) ∈ al.map (fun q => (q.1, variantRound q.2))) := by
  refine ⟨?_, List.length_map _ _, ?_⟩
  · rw [decode_encode l h]
    simp [roundAttrs, hal]
  · intro q hq hsup
    refine ⟨writeVariant_unsupported _ hsup, ?_⟩
    have hv : (fun q => (q.1, variantRound q.2)) q = (q.1, GoVal.vnil) := by
      simp only [variantRound_unsupported _ hsup]
    rw [← hv]
    exact List.mem_map_of_mem _ hq

/-- A canonical record with one supported and one unsupported attribute
value. -/
def witUnsupportedRec : LogRecordExtObj :=
  ⟨.unix 0, 2, [], some (.numeric 0 0), some (.numeric 0 0), [],
   List.replicate 16 0, 0, 0, [],
   some [([107], .vother), ([109], .vbool true)]⟩

set_option maxHeartbeats 1600000 in
set_option maxRecDepth 4000 in
/-- Witness for C10: the unsupported value comes back as `nil` under its
key, the supported one unchanged, no pair dropped. -/
theorem claim10_encode_never_drops_pairs_witness :
    (LogRecordExtObj.decode witUnsupportedRec.encode).1.additionalData =
      some [([107], GoVal.vnil), ([109], GoVal.vbool true)] := by
  have h := claim10_encode_never_drops_pairs witUnsupportedRec
    (by
      refine ⟨⟨0, rfl, by norm_num, ⟨0, by norm_num⟩, by norm_num⟩,
        by norm_num [witUnsupportedRec], by norm_num [witUnsupportedRec, wfStr],
        ⟨.numeric 0 0, rfl, by norm_num [wfNodeId]⟩,
        ⟨.numeric 0 0, rfl, by norm_num [wfNodeId]⟩,
        by norm_num [witUnsupportedRec, wfStr], by decide, by decide,
        by norm_num [witUnsupportedRec], by norm_num [witUnsupportedRec],
        by norm_num [witUnsupportedRec, wfStr], ?_⟩
      refine ⟨by decide, by norm_num, ?_, by decide⟩
      intro q hq
      simp only [List.mem_cons, List.mem_singleton] at hq
      rcases hq with hq | hq | hq
      · subst hq
        exact ⟨by decide, by norm_num [wfStr], by norm_num [wfVal]⟩
      · subst hq
        exact ⟨by decide, by norm_num [wfStr], by norm_num [wfVal]⟩
      · simp at hq)
    _ rfl
  have h1 := h.1
  simpa [variantRound] using h1

end OpcUa
